import Mathlib

/-!
Verification of the event-batching core of the `go-sdk` repository.

The repository ships the tests of the batch event processor
(`pkg/event/processor_test.go`), a static project-config manager
(`optimizely/config/static_manager.go`) and a notification manager used by the
integration tests.  The processor, queue and batch-assembly code themselves are
described by the specification; the corresponding Lean definitions below are
modelled from the specification's words and each such definition says so in its
doc comment.  The dispatcher is a pure capability `LogEvent → Bool`: `true`
models `(delivered = true, err = nil)` and `false` models a failed dispatch
(`delivered = false` or a non-nil error — the core treats both identically).
-/

namespace GoSdk

/-- Modelled from the spec: the `EventContext` (missing from src, only used by
the tests) identifies the owning project and the configuration revision under
which the event was generated, plus account metadata. -/
structure EventContext where
  ProjectID : String
  Revision : String
  AccountID : String
deriving DecidableEq

/-- Modelled from the spec: a `UserEvent` (missing from src) is an immutable
experiment-exposure or conversion event: an event context, a user identifier
and a creation timestamp. -/
structure UserEvent where
  Context : EventContext
  VisitorID : String
  Timestamp : Nat
deriving DecidableEq

/-- Modelled from the spec: two events are batch-compatible only if their
`EventContext` project ID and revision are identical. -/
def EventContext.matches (a b : EventContext) : Bool :=
  a.ProjectID == b.ProjectID && a.Revision == b.Revision

/-- Modelled from the spec: the dispatch-wire representation of one `UserEvent`
within a batch. -/
structure Visitor where
  VisitorID : String
  Timestamp : Nat
deriving DecidableEq

/-- Modelled from the spec: each emitted batch converts `UserEvent`s into
visitor records. -/
def UserEvent.visitor (e : UserEvent) : Visitor :=
  ⟨e.VisitorID, e.Timestamp⟩

/-- Modelled from the spec: a `LogEvent` (missing from src) is an assembled,
dispatch-ready batch: one common `EventContext` plus the ordered member events
it was built from.  The wire payload lists one visitor record per member. -/
structure LogEvent where
  Context : EventContext
  Members : List UserEvent
deriving DecidableEq

/-- Modelled from the spec: the visitor list of a batch, one record per member
event, in order. -/
def LogEvent.Visitors (b : LogEvent) : List Visitor :=
  b.Members.map UserEvent.visitor

/-- Modelled from the spec: the in-memory bounded FIFO queue (missing from
src).  `MaxSize` is the configured capacity, `Items` the pending elements in
arrival order. -/
structure InMemoryQueue (α : Type) where
  MaxSize : Nat
  Items : List α
deriving DecidableEq

/-- Modelled from the spec: `NewInMemoryQueue(maxSize)` creates an empty
bounded queue. -/
def NewInMemoryQueue (α : Type) (maxSize : Nat) : InMemoryQueue α :=
  ⟨maxSize, []⟩

/-- Modelled from the spec: `Size()` returns the current count. -/
def InMemoryQueue.Size (q : InMemoryQueue α) : Nat :=
  q.Items.length

/-- Modelled from the spec: `Add(event)` appends to the tail and fails
silently (no-op) if at capacity. -/
def InMemoryQueue.Add (q : InMemoryQueue α) (e : α) : InMemoryQueue α :=
  if q.Items.length < q.MaxSize then { q with Items := q.Items ++ [e] } else q

/-- Modelled from the spec: `Get(n)` returns the first `n` elements without
removing them. -/
def InMemoryQueue.Get (q : InMemoryQueue α) (n : Nat) : List α :=
  q.Items.take n

/-- Modelled from the spec: `Remove(n)` removes and returns the first `n`
elements, preserving order. -/
def InMemoryQueue.Remove (q : InMemoryQueue α) (n : Nat) :
    List α × InMemoryQueue α :=
  (q.Items.take n, { q with Items := q.Items.drop n })

/-- Modelled from the spec: re-insertion at the front of the queue, used by the
flush path for the member events of a failed batch, so that they precede any
event that arrived after the flush began. -/
def InMemoryQueue.Requeue (q : InMemoryQueue α) (es : List α) : InMemoryQueue α :=
  { q with Items := es ++ q.Items }

/-- Modelled from the spec: the single left-to-right scan of the batch
assembler.  `ctx` is the context of the batch being accumulated and `ms` its
members so far; a new batch starts whenever the context changes from the
previous event, and the current batch is emitted on a change or at the end. -/
def batchRun (ctx : EventContext) (ms : List UserEvent) :
    List UserEvent → List LogEvent
  | [] => [⟨ctx, ms⟩]
  | e :: es =>
    if ctx.matches e.Context then
      batchRun ctx (ms ++ [e]) es
    else
      ⟨ctx, ms⟩ :: batchRun e.Context [e] es

/-- Modelled from the spec: the batch assembler (missing from src) partitions a
dequeued FIFO list of events into dispatchable batches in one scan. -/
def batchEvents : List UserEvent → List LogEvent
  | [] => []
  | e :: es => batchRun e.Context [e] es

/-- Modelled from the spec: the embedder-supplied dispatch capability.
`true` is a successful delivery; `false` covers both `delivered == false`
and a non-nil error, which the core treats identically. -/
abbrev Dispatcher := LogEvent → Bool

/-- Modelled from the spec: the batch event processor (missing from src) owns a
bounded queue of pending events; `MaxQueueSize` is the configured capacity. -/
structure BatchEventProcessor where
  MaxQueueSize : Nat
  Q : InMemoryQueue UserEvent
deriving DecidableEq

/-- Modelled from the spec: `NewEventProcessor(QueueSize(n), PQ(NewInMemoryQueue(n)), ...)`
wires an empty queue of the configured capacity. -/
def NewEventProcessor (queueSize : Nat) : BatchEventProcessor :=
  ⟨queueSize, NewInMemoryQueue UserEvent queueSize⟩

/-- Modelled from the spec: `EventsCount()` returns the current queue size,
with no side effects. -/
def BatchEventProcessor.EventsCount (p : BatchEventProcessor) : Nat :=
  p.Q.Size

/-- Modelled from the spec: the internal flush.  It dequeues the entire current
queue contents, delegates to the batch assembler, dispatches each batch in
order, and re-inserts the member events of every failed batch at the front of
the queue in their original order.  The returned list is the dispatch log: each
attempted batch paired with the dispatcher's verdict, in dispatch order. -/
def flushEvents (d : Dispatcher) (p : BatchEventProcessor) :
    BatchEventProcessor × List (LogEvent × Bool) :=
  let drained := p.Q.Remove p.Q.Size
  let log := (batchEvents drained.1).map (fun b => (b, d b))
  let failed := (log.filter (fun r => !r.2)).map Prod.fst
  ({ p with Q := drained.2.Requeue (failed.flatMap LogEvent.Members) }, log)

/-- Modelled from the spec: `ProcessEvent(event)` enqueues the event
(respecting capacity) and, if the resulting queue size has reached the
configured capacity, triggers an immediate flush.  The spec permits the flush
to run synchronously inside `ProcessEvent`; this model does so. -/
def processEvent (d : Dispatcher) (p : BatchEventProcessor) (e : UserEvent) :
    BatchEventProcessor × List (LogEvent × Bool) :=
  let p1 : BatchEventProcessor := { p with Q := p.Q.Add e }
  if p.MaxQueueSize ≤ p1.Q.Size then flushEvents d p1 else (p1, [])

/-- A sequence of `ProcessEvent` calls, accumulating the dispatch log. -/
def processList (d : Dispatcher) (p : BatchEventProcessor) :
    List UserEvent → BatchEventProcessor × List (LogEvent × Bool)
  | [] => (p, [])
  | e :: es =>
    ((processList d (processEvent d p e).1 es).1,
     (processEvent d p e).2 ++ (processList d (processEvent d p e).1 es).2)

/-- Modelled from the spec: on termination the worker performs exactly one
final flush, draining the entire queue regardless of its size, before the
caller blocked in the termination wait is released. -/
def terminateAndWait (d : Dispatcher) (p : BatchEventProcessor) :
    BatchEventProcessor × List (LogEvent × Bool) :=
  flushEvents d p

/-- `StaticProjectConfigManager` from `optimizely/config/static_manager.go`:
it maintains a static copy of the project config.  The Go mutex only
serializes access and has no observable effect in a sequential model. -/
structure StaticProjectConfigManager (Config : Type) where
  projectConfig : Config

/-- `NewStaticProjectConfigManager` from `static_manager.go`: stores the given
project config. -/
def NewStaticProjectConfigManager {Config : Type} (config : Config) :
    StaticProjectConfigManager Config :=
  ⟨config⟩

/-- `GetConfig` from `static_manager.go`: returns the stored project config. -/
def StaticProjectConfigManager.GetConfig {Config : Type}
    (cm : StaticProjectConfigManager Config) : Config :=
  cm.projectConfig

/-- `NotificationManager` from the integration-test plugins file: it
accumulates the listener records produced by the decision/track callbacks and
the project-config-update callbacks.  `L` stands for the record type appended
by `decisionCallback`/`trackCallback` (Go `interface{}`), `P` for
`notification.ProjectConfigUpdateNotification`. -/
structure NotificationManager (L P : Type) where
  listenersCalled : List L
  projectConfigUpdateListenersCalled : List P

/-- `GetListenersCalled`: returns the accumulated listener records and empties
the internal list (the Go code sets the slice to nil). -/
def NotificationManager.GetListenersCalled {L P : Type}
    (n : NotificationManager L P) : List L × NotificationManager L P :=
  (n.listenersCalled, { n with listenersCalled := [] })

/-- `GetProjectConfigUpdateListenersCalled`: returns the accumulated
project-config-update records and empties the internal list. -/
def NotificationManager.GetProjectConfigUpdateListenersCalled {L P : Type}
    (n : NotificationManager L P) : List P × NotificationManager L P :=
  (n.projectConfigUpdateListenersCalled,
   { n with projectConfigUpdateListenersCalled := [] })

/-- `decisionCallback`/`trackCallback`: append one record to
`listenersCalled`. -/
def NotificationManager.recordListener {L P : Type}
    (n : NotificationManager L P) (x : L) : NotificationManager L P :=
  { n with listenersCalled := n.listenersCalled ++ [x] }

/-- `projectConfigUpdateCallback`: appends one record to
`projectConfigUpdateListenersCalled`. -/
def NotificationManager.recordConfigUpdate {L P : Type}
    (n : NotificationManager L P) (x : P) : NotificationManager L P :=
  { n with projectConfigUpdateListenersCalled :=
      n.projectConfigUpdateListenersCalled ++ [x] }

/-! ## Basic lemmas about contexts and the batch assembler -/

/-- `matches` decides equality of the project ID and the revision. -/
theorem EventContext.matches_iff (a b : EventContext) :
    a.matches b = true ↔ a.ProjectID = b.ProjectID ∧ a.Revision = b.Revision := by
  simp [EventContext.matches]

/-- `matches` is reflexive. -/
theorem EventContext.matches_self (a : EventContext) : a.matches a = true := by
  simp [EventContext.matches]

/-- The batch-assembler scan neither drops nor reorders events: concatenating
the members of the emitted batches restores the accumulated members followed by
the remaining input. -/
theorem batchRun_flatMap_members (es : List UserEvent) :
    ∀ ctx ms, (batchRun ctx ms es).flatMap LogEvent.Members = ms ++ es := by
  induction es with
  | nil => intro ctx ms; simp [batchRun]
  | cons e es ih =>
    intro ctx ms
    simp only [batchRun]
    split
    · rw [ih]; simp
    · simp [List.flatMap_cons, ih]

/-- The batch assembler neither drops nor reorders events. -/
theorem batchEvents_flatMap_members (es : List UserEvent) :
    (batchEvents es).flatMap LogEvent.Members = es := by
  cases es with
  | nil => rfl
  | cons e es => simp [batchEvents, batchRun_flatMap_members]

/-- Every batch emitted by the scan has a nonempty member list, provided the
accumulated member list is nonempty. -/
theorem batchRun_members_ne_nil (es : List UserEvent) :
    ∀ ctx ms, ms ≠ [] → ∀ b ∈ batchRun ctx ms es, b.Members ≠ [] := by
  induction es with
  | nil =>
    intro ctx ms hms b hb
    simp [batchRun] at hb
    subst hb
    exact hms
  | cons e es ih =>
    intro ctx ms hms b hb
    simp only [batchRun] at hb
    split at hb
    · exact ih ctx (ms ++ [e]) (by simp) b hb
    · rcases List.mem_cons.mp hb with h | h
      · subst h; exact hms
      · exact ih e.Context [e] (by simp) b h

/-- Every batch produced by the batch assembler has a nonempty member list. -/
theorem batchEvents_members_ne_nil (es : List UserEvent) :
    ∀ b ∈ batchEvents es, b.Members ≠ [] := by
  cases es with
  | nil => intro b hb; simp [batchEvents] at hb
  | cons e es =>
    intro b hb
    exact batchRun_members_ne_nil es e.Context [e] (by simp) b hb

/-- Every member of every batch emitted by the scan matches the batch's
context, provided the accumulated members match the accumulated context. -/
theorem batchRun_coherent (es : List UserEvent) :
    ∀ ctx ms, (∀ e ∈ ms, ctx.matches e.Context = true) →
      ∀ b ∈ batchRun ctx ms es, ∀ e ∈ b.Members, b.Context.matches e.Context = true := by
  induction es with
  | nil =>
    intro ctx ms hms b hb
    simp [batchRun] at hb
    subst hb
    exact hms
  | cons e es ih =>
    intro ctx ms hms b hb
    simp only [batchRun] at hb
    split at hb
    · refine ih ctx (ms ++ [e]) ?_ b hb
      intro x hx
      rcases List.mem_append.mp hx with h | h
      · exact hms x h
      · simp at h; subst h; assumption
    · rcases List.mem_cons.mp hb with h | h
      · subst h; exact hms
      · refine ih e.Context [e] ?_ b h
        intro x hx
        simp at hx
        subst hx
        exact EventContext.matches_self _

/-- Every member of every batch produced by the batch assembler matches the
batch's context. -/
theorem batchEvents_coherent (es : List UserEvent) :
    ∀ b ∈ batchEvents es, ∀ e ∈ b.Members, b.Context.matches e.Context = true := by
  cases es with
  | nil => intro b hb; simp [batchEvents] at hb
  | cons e es =>
    intro b hb
    refine batchRun_coherent es e.Context [e] ?_ b hb
    intro x hx
    simp at hx
    subst hx
    exact EventContext.matches_self _

/-- When the whole remaining input matches the accumulated context, the scan
emits a single batch holding everything. -/
theorem batchRun_of_all_matches (es : List UserEvent) :
    ∀ ctx ms, (∀ e ∈ es, ctx.matches e.Context = true) →
      batchRun ctx ms es = [⟨ctx, ms ++ es⟩] := by
  induction es with
  | nil => intro ctx ms _; simp [batchRun]
  | cons e es ih =>
    intro ctx ms h
    have he : ctx.matches e.Context = true := h e (by simp)
    simp only [batchRun, he, if_pos]
    rw [ih ctx (ms ++ [e]) (fun x hx => h x (by simp [hx]))]
    simp

/-- A sublist of the input yields a sublist after `flatMap`. -/
theorem sublist_flatMap {α β : Type} (f : α → List β) {l₁ l₂ : List α}
    (h : l₁.Sublist l₂) : (l₁.flatMap f).Sublist (l₂.flatMap f) := by
  induction h with
  | slnil => simp
  | cons a h ih =>
    simp only [List.flatMap_cons]
    exact ih.trans (List.sublist_append_right _ _)
  | cons₂ a h ih =>
    simp only [List.flatMap_cons]
    exact ih.append_left _

/-! ## Lemmas about the flush path -/

/-- Closed form of `flushEvents`: the queue afterwards holds exactly the
members of the failed batches, in order, and the dispatch log pairs each
assembled batch with the dispatcher's verdict. -/
theorem flushEvents_eq (d : Dispatcher) (p : BatchEventProcessor) :
    flushEvents d p =
      ({ p with Q := { p.Q with Items :=
          ((batchEvents p.Q.Items).filter (fun b => !(d b))).flatMap LogEvent.Members } },
       (batchEvents p.Q.Items).map (fun b => (b, d b))) := by
  simp only [flushEvents, InMemoryQueue.Remove, InMemoryQueue.Requeue, InMemoryQueue.Size]
  simp [List.filter_map, List.map_map, Function.comp_def]

/-- Every entry of the flush's dispatch log records the dispatcher's verdict on
its batch. -/
theorem flushEvents_log_snd (d : Dispatcher) (p : BatchEventProcessor) :
    ∀ r ∈ (flushEvents d p).2, r.2 = d r.1 := by
  rw [flushEvents_eq]
  intro r hr
  simp only [List.mem_map] at hr
  obtain ⟨b, _, rfl⟩ := hr
  rfl

/-- A flush does not change the queue's capacity. -/
theorem flushEvents_MaxSize (d : Dispatcher) (p : BatchEventProcessor) :
    ((flushEvents d p).1).Q.MaxSize = p.Q.MaxSize := by
  rw [flushEvents_eq]

/-- A flush does not change the processor's configured capacity. -/
theorem flushEvents_MaxQueueSize (d : Dispatcher) (p : BatchEventProcessor) :
    ((flushEvents d p).1).MaxQueueSize = p.MaxQueueSize := by
  rw [flushEvents_eq]

/-- After a flush the queue holds a sublist of what it held before, in the
original relative order. -/
theorem flushEvents_items_sublist (d : Dispatcher) (p : BatchEventProcessor) :
    ((flushEvents d p).1).Q.Items.Sublist p.Q.Items := by
  rw [flushEvents_eq]
  have h2 := sublist_flatMap LogEvent.Members
    (List.filter_sublist (p := fun b => !(d b)) (batchEvents p.Q.Items))
  rw [batchEvents_flatMap_members] at h2
  simpa using h2

/-- A flush every one of whose dispatch attempts failed puts the queue back
exactly as it was: nothing is lost, and the same events are attempted again on
the next flush. -/
theorem flushEvents_items_of_all_fail (d : Dispatcher) (p : BatchEventProcessor)
    (h : ∀ r ∈ (flushEvents d p).2, r.2 = false) :
    ((flushEvents d p).1).Q.Items = p.Q.Items := by
  rw [flushEvents_eq] at h ⊢
  have hb : ∀ b ∈ batchEvents p.Q.Items, d b = false := by
    intro b hbmem
    exact h (b, d b) (List.mem_map_of_mem _ hbmem)
  have hfil : (batchEvents p.Q.Items).filter (fun b => !(d b)) = batchEvents p.Q.Items :=
    List.filter_eq_self.mpr (fun b hb2 => by simp [hb b hb2])
  simp [hfil, batchEvents_flatMap_members]

/-! ## Lemmas about `processEvent` and `processList` -/

/-- `Add` never changes the capacity. -/
theorem InMemoryQueue.Add_MaxSize {α : Type} (q : InMemoryQueue α) (e : α) :
    (q.Add e).MaxSize = q.MaxSize := by
  simp only [InMemoryQueue.Add]
  split <;> rfl

/-- Below capacity, `Add` appends at the tail. -/
theorem InMemoryQueue.Add_Items_of_lt {α : Type} (q : InMemoryQueue α) (e : α)
    (h : q.Items.length < q.MaxSize) : (q.Add e).Items = q.Items ++ [e] := by
  simp [InMemoryQueue.Add, h]

/-- `Add` keeps the size within capacity. -/
theorem InMemoryQueue.Add_length_le {α : Type} (q : InMemoryQueue α) (e : α)
    (h : q.Items.length ≤ q.MaxSize) : (q.Add e).Items.length ≤ q.MaxSize := by
  simp only [InMemoryQueue.Add]
  split
  · simp only [List.length_append, List.length_cons, List.length_nil]
    omega
  · exact h

/-- `processEvent` never changes the queue's capacity. -/
theorem processEvent_MaxSize (d : Dispatcher) (p : BatchEventProcessor) (e : UserEvent) :
    ((processEvent d p e).1).Q.MaxSize = p.Q.MaxSize := by
  simp only [processEvent]
  split
  · rw [flushEvents_MaxSize]
    exact InMemoryQueue.Add_MaxSize p.Q e
  · exact InMemoryQueue.Add_MaxSize p.Q e

/-- `processEvent` never changes the processor's configured capacity. -/
theorem processEvent_MaxQueueSize (d : Dispatcher) (p : BatchEventProcessor) (e : UserEvent) :
    ((processEvent d p e).1).MaxQueueSize = p.MaxQueueSize := by
  simp only [processEvent]
  split
  · rw [flushEvents_MaxQueueSize]
  · rfl

/-- `processEvent` keeps the queue within capacity. -/
theorem processEvent_length_le (d : Dispatcher) (p : BatchEventProcessor) (e : UserEvent)
    (h : p.Q.Items.length ≤ p.Q.MaxSize) :
    ((processEvent d p e).1).Q.Items.length ≤ p.Q.MaxSize := by
  simp only [processEvent]
  split
  · have hs := (flushEvents_items_sublist d { p with Q := p.Q.Add e }).length_le
    have hle := InMemoryQueue.Add_length_le p.Q e h
    have hmax := InMemoryQueue.Add_MaxSize p.Q e
    simp only at hs
    omega
  · exact InMemoryQueue.Add_length_le p.Q e h

/-- Every entry of the log of `processEvent` records the dispatcher's verdict
on its batch. -/
theorem processEvent_log_snd (d : Dispatcher) (p : BatchEventProcessor) (e : UserEvent) :
    ∀ r ∈ (processEvent d p e).2, r.2 = d r.1 := by
  simp only [processEvent]
  split
  · exact flushEvents_log_snd d _
  · intro r hr; simp at hr

/-- Every entry of the accumulated log of `processList` records the
dispatcher's verdict on its batch. -/
theorem processList_log_snd (d : Dispatcher) :
    ∀ (es : List UserEvent) (p : BatchEventProcessor),
      ∀ r ∈ (processList d p es).2, r.2 = d r.1 := by
  intro es
  induction es with
  | nil => intro p r hr; simp [processList] at hr
  | cons e es ih =>
    intro p r hr
    simp only [processList, List.mem_append] at hr
    rcases hr with h | h
    · exact processEvent_log_snd d p e r h
    · exact ih _ r h

/-- `processList` keeps the queue within capacity and never changes the
capacity. -/
theorem processList_length_le (d : Dispatcher) :
    ∀ (es : List UserEvent) (p : BatchEventProcessor),
      p.Q.Items.length ≤ p.Q.MaxSize →
      ((processList d p es).1).Q.Items.length ≤ p.Q.MaxSize
      ∧ ((processList d p es).1).Q.MaxSize = p.Q.MaxSize := by
  intro es
  induction es with
  | nil => intro p h; exact ⟨h, rfl⟩
  | cons e es ih =>
    intro p h
    have h1 := processEvent_length_le d p e h
    have h2 := processEvent_MaxSize d p e
    have h3 := ih (processEvent d p e).1 (by rw [h2]; exact h1)
    simp only [processList]
    constructor
    · rw [h2] at h3; exact h3.1
    · rw [h3.2, h2]

/-- If every dispatch attempt during `processEvent` failed and the queue was
strictly below capacity, the event is appended and nothing else changes. -/
theorem processEvent_items_of_all_fail (d : Dispatcher) (p : BatchEventProcessor)
    (e : UserEvent) (hlt : p.Q.Items.length < p.Q.MaxSize)
    (hr : ∀ r ∈ (processEvent d p e).2, r.2 = false) :
    ((processEvent d p e).1).Q.Items = p.Q.Items ++ [e] := by
  have hadd := InMemoryQueue.Add_Items_of_lt p.Q e hlt
  simp only [processEvent] at hr ⊢
  split at hr
  · rename_i hcond
    rw [if_pos hcond]
    rw [flushEvents_items_of_all_fail d _ hr]
    exact hadd
  · rename_i hcond
    rw [if_neg hcond]
    exact hadd

/-- If every dispatch attempt during `processList` failed and the whole input
fits within the remaining capacity, the run appends every event in order and
loses none. -/
theorem processList_items_of_all_fail (d : Dispatcher) :
    ∀ (es : List UserEvent) (p : BatchEventProcessor),
      p.Q.Items.length + es.length ≤ p.Q.MaxSize →
      (∀ r ∈ (processList d p es).2, r.2 = false) →
      ((processList d p es).1).Q.Items = p.Q.Items ++ es := by
  intro es
  induction es with
  | nil => intro p _ _; simp [processList]
  | cons e es ih =>
    intro p h hr
    simp only [processList, List.mem_append] at hr
    have hlt : p.Q.Items.length < p.Q.MaxSize := by
      simp only [List.length_cons] at h
      omega
    have hst := processEvent_items_of_all_fail d p e hlt
      (fun r h2 => hr r (Or.inl h2))
    have hmax := processEvent_MaxSize d p e
    have hrec := ih (processEvent d p e).1 (by
      rw [hmax, hst]
      simp only [List.length_append, List.length_cons, List.length_nil] at h ⊢
      omega) (fun r h2 => hr r (Or.inr h2))
    simp only [processList]
    rw [hrec, hst]
    simp

/-! ## Concrete fixtures mirroring the Go test builders -/

/-- The shared event context of the test builders: the tests batch an
impression and a conversion together, so both builders use one context. -/
def testContext : EventContext :=
  ⟨"1111", "5", "4444"⟩

/-- Fixture mirroring `BuildTestImpressionEvent`. -/
def BuildTestImpressionEvent : UserEvent :=
  ⟨testContext, "user1", 0⟩

/-- Fixture mirroring `BuildTestConversionEvent`. -/
def BuildTestConversionEvent : UserEvent :=
  ⟨testContext, "user1", 1⟩

/-- The impression after the revision-mismatch test mutates
`impression.EventContext.Revision = "12112121"`. -/
def BuildTestImpressionEventRev2 : UserEvent :=
  ⟨⟨"1111", "12112121", "4444"⟩, "user1", 0⟩

/-- The impression after the project-mismatch test mutates
`impression.EventContext.ProjectID = "121121211111"`. -/
def BuildTestImpressionEventProj2 : UserEvent :=
  ⟨⟨"121121211111", "5", "4444"⟩, "user1", 0⟩

/-! ## Claim theorems -/

/-- C1: for every processor whose dispatcher always reports success, after
termination is signaled and the termination wait returns, `EventsCount()`
returns 0, and the final flush attempted every event that was in the queue —
it drains the entire queue regardless of its size. -/
theorem C1_terminate_drains_queue (d : Dispatcher) (p : BatchEventProcessor)
    (hd : ∀ b, d b = true) :
    ((terminateAndWait d p).1).EventsCount = 0
    ∧ (((terminateAndWait d p).2).map Prod.fst).flatMap LogEvent.Members = p.Q.Items := by
  unfold terminateAndWait
  rw [flushEvents_eq]
  constructor
  · simp [BatchEventProcessor.EventsCount, InMemoryQueue.Size, hd]
  · simp [List.map_map, Function.comp_def, batchEvents_flatMap_members]

/-- C1 witness: a processor holding two queued events and an
always-successful dispatcher ends with an empty queue after termination, the
final flush having attempted both events. -/
theorem C1_terminate_drains_queue_witness :
    ((terminateAndWait (fun _ => true)
        ⟨10, ⟨10, [BuildTestImpressionEvent, BuildTestConversionEvent]⟩⟩).1).EventsCount = 0
    ∧ (((terminateAndWait (fun _ => true)
        ⟨10, ⟨10, [BuildTestImpressionEvent, BuildTestConversionEvent]⟩⟩).2).map
          Prod.fst).flatMap LogEvent.Members
        = [BuildTestImpressionEvent, BuildTestConversionEvent] :=
  C1_terminate_drains_queue (fun _ => true)
    ⟨10, ⟨10, [BuildTestImpressionEvent, BuildTestConversionEvent]⟩⟩ (fun _ => rfl)

/-- Every event in the queue is a member of some batch attempted by any
flush of that queue. -/
theorem mem_flush_log_of_mem_items (d : Dispatcher) (p : BatchEventProcessor)
    (e : UserEvent) (he : e ∈ p.Q.Items) :
    ∃ r ∈ (flushEvents d p).2, e ∈ r.1.Members := by
  have h := batchEvents_flatMap_members p.Q.Items
  rw [← h] at he
  obtain ⟨b, hb, hmem⟩ := List.mem_flatMap.mp he
  refine ⟨(b, d b), ?_, hmem⟩
  rw [flushEvents_eq]
  exact List.mem_map_of_mem _ hb

/-- C2: in any flush — the dispatcher may deliver some batches and fail others
— every member event of every batch whose dispatch failed is still in the
queue (hence still counted by `EventsCount()`) after the flush completes, and
is a member of some batch attempted by the next flush, whatever dispatcher
verdicts that flush meets; in particular, submitting `n ≤ capacity` events
into a fresh processor with an always-failing dispatcher and terminating
leaves `EventsCount()` at `n` with no delivered batch in the whole log. -/
theorem C2_failed_batch_events_retained (d : Dispatcher) (p : BatchEventProcessor) :
    (∀ r ∈ (flushEvents d p).2, r.2 = false →
        ∀ e ∈ r.1.Members,
          e ∈ ((flushEvents d p).1).Q.Items
          ∧ ∀ d2 : Dispatcher,
              ∃ r2 ∈ (flushEvents d2 (flushEvents d p).1).2, e ∈ r2.1.Members)
    ∧ ∀ (c : Nat) (es : List UserEvent) (df : Dispatcher),
        (∀ b, df b = false) → es.length ≤ c →
        ((terminateAndWait df (processList df (NewEventProcessor c) es).1).1).EventsCount
            = es.length
        ∧ ∀ r ∈ (processList df (NewEventProcessor c) es).2
              ++ (terminateAndWait df (processList df (NewEventProcessor c) es).1).2,
            r.2 = false := by
  constructor
  · intro r hr hfail e he
    have hdb : d r.1 = false := by
      rw [← flushEvents_log_snd d p r hr, hfail]
    have hbmem : r.1 ∈ batchEvents p.Q.Items := by
      rw [flushEvents_eq] at hr
      simp only [List.mem_map] at hr
      obtain ⟨b, hb, heq⟩ := hr
      rw [← heq]
      exact hb
    have hin : e ∈ ((flushEvents d p).1).Q.Items := by
      rw [flushEvents_eq]
      exact List.mem_flatMap.mpr
        ⟨r.1, List.mem_filter.mpr ⟨hbmem, by simp [hdb]⟩, he⟩
    exact ⟨hin, fun d2 => mem_flush_log_of_mem_items d2 _ e hin⟩
  · intro c es df hdf hlen
    have hflush : ∀ q : BatchEventProcessor,
        ((flushEvents df q).1).Q.Items = q.Q.Items := by
      intro q
      refine flushEvents_items_of_all_fail df q ?_
      intro r hr
      rw [flushEvents_log_snd df q r hr, hdf]
    have hrunlog : ∀ r ∈ (processList df (NewEventProcessor c) es).2, r.2 = false := by
      intro r hr
      rw [processList_log_snd df es (NewEventProcessor c) r hr, hdf]
    have hrun : ((processList df (NewEventProcessor c) es).1).Q.Items = es := by
      have h0 := processList_items_of_all_fail df es (NewEventProcessor c)
        (by simpa [NewEventProcessor, NewInMemoryQueue] using hlen) hrunlog
      simpa [NewEventProcessor, NewInMemoryQueue] using h0
    refine ⟨?_, ?_⟩
    · unfold terminateAndWait
      rw [BatchEventProcessor.EventsCount, InMemoryQueue.Size,
        hflush (processList df (NewEventProcessor c) es).1, hrun]
    · intro r hr
      rcases List.mem_append.mp hr with h | h
      · exact hrunlog r h
      · rw [flushEvents_log_snd df _ r h, hdf]

/-- C2 witness: a mixed flush: the queue holds the impression at revision "5"
and the impression at revision "12112121"; the dispatcher delivers the first
batch (context matches `testContext`) and fails the second.  The failed
batch's member event survives the flush in the queue and is attempted by the
next flush, whatever its dispatcher answers. -/
theorem C2_failed_batch_events_retained_witness :
    BuildTestImpressionEventRev2 ∈
      ((flushEvents (fun b => b.Context.matches testContext)
          ⟨10, ⟨10, [BuildTestImpressionEvent, BuildTestImpressionEventRev2]⟩⟩).1).Q.Items
    ∧ ∀ d2 : Dispatcher,
        ∃ r2 ∈ (flushEvents d2
            (flushEvents (fun b => b.Context.matches testContext)
              ⟨10, ⟨10, [BuildTestImpressionEvent, BuildTestImpressionEventRev2]⟩⟩).1).2,
          BuildTestImpressionEventRev2 ∈ r2.1.Members :=
  (C2_failed_batch_events_retained (fun b => b.Context.matches testContext)
      ⟨10, ⟨10, [BuildTestImpressionEvent, BuildTestImpressionEventRev2]⟩⟩).1
    (⟨⟨"1111", "12112121", "4444"⟩, [BuildTestImpressionEventRev2]⟩, false)
    (by decide) (by decide) BuildTestImpressionEventRev2 (by decide)

/-- C3: the batch assembler scans the dequeued list once, preserves arrival
order and starts a new batch exactly when the context changes: a run of events
with identical context yields one batch with one member (hence one visitor
record) per event, and the mismatch list `i1, i2, c1, c2` — where `i1`/`i2`
and `i2`/`c1` are incompatible and `c1`/`c2` are compatible — yields exactly
three batches in arrival order, the last holding two members. -/
theorem C3_batch_assembler_splits (i1 i2 c1 c2 : UserEvent)
    (h12 : i1.Context.matches i2.Context = false)
    (h2c : i2.Context.matches c1.Context = false)
    (hcc : c1.Context.matches c2.Context = true) :
    (∀ (ctx : EventContext) (es : List UserEvent), es ≠ [] →
        (∀ e ∈ es, e.Context = ctx) → batchEvents es = [⟨ctx, es⟩])
    ∧ batchEvents [i1, i2, c1, c2]
        = [⟨i1.Context, [i1]⟩, ⟨i2.Context, [i2]⟩, ⟨c1.Context, [c1, c2]⟩] := by
  constructor
  · intro ctx es hne hall
    cases es with
    | nil => exact absurd rfl hne
    | cons e es =>
      have he : e.Context = ctx := hall e (by simp)
      simp only [batchEvents]
      rw [batchRun_of_all_matches es e.Context [e] (fun x hx => by
        rw [hall x (by simp [hx]), he]
        exact EventContext.matches_self ctx)]
      rw [he]
      rfl
  · simp [batchEvents, batchRun, h12, h2c, hcc]

/-- C3 witness: the revision-mismatch scenario of the tests — impression at
revision "5", impression at revision "12112121", then two conversions — yields
three batches, the last with two members; and four identical-context events
yield a single batch with four members. -/
theorem C3_batch_assembler_splits_witness :
    (batchEvents [BuildTestImpressionEvent, BuildTestImpressionEvent,
        BuildTestConversionEvent, BuildTestConversionEvent]
      = [⟨testContext, [BuildTestImpressionEvent, BuildTestImpressionEvent,
          BuildTestConversionEvent, BuildTestConversionEvent]⟩])
    ∧ batchEvents [BuildTestImpressionEvent, BuildTestImpressionEventRev2,
        BuildTestConversionEvent, BuildTestConversionEvent]
      = [⟨BuildTestImpressionEvent.Context, [BuildTestImpressionEvent]⟩,
         ⟨BuildTestImpressionEventRev2.Context, [BuildTestImpressionEventRev2]⟩,
         ⟨BuildTestConversionEvent.Context,
          [BuildTestConversionEvent, BuildTestConversionEvent]⟩] :=
  ⟨(C3_batch_assembler_splits BuildTestImpressionEvent BuildTestImpressionEventRev2
      BuildTestConversionEvent BuildTestConversionEvent (by decide) (by decide)
      (by decide)).1 testContext
      [BuildTestImpressionEvent, BuildTestImpressionEvent,
       BuildTestConversionEvent, BuildTestConversionEvent] (by decide) (by decide),
   (C3_batch_assembler_splits BuildTestImpressionEvent BuildTestImpressionEventRev2
      BuildTestConversionEvent BuildTestConversionEvent (by decide) (by decide)
      (by decide)).2⟩

/-- C4: every batch handed to the dispatcher during a flush has a nonempty
member (visitor) list, and every event contributing to a batch has exactly the
batch's project ID and revision — no batch mixes incompatible contexts. -/
theorem C4_batches_never_mixed (d : Dispatcher) (p : BatchEventProcessor) :
    ∀ b ∈ ((flushEvents d p).2).map Prod.fst,
      b.Members ≠ []
      ∧ ∀ e ∈ b.Members,
          e.Context.ProjectID = b.Context.ProjectID
          ∧ e.Context.Revision = b.Context.Revision := by
  have hlog : ((flushEvents d p).2).map Prod.fst = batchEvents p.Q.Items := by
    rw [flushEvents_eq]
    simp [List.map_map, Function.comp_def]
  intro b hb
  rw [hlog] at hb
  refine ⟨batchEvents_members_ne_nil p.Q.Items b hb, ?_⟩
  intro e he
  have h := batchEvents_coherent p.Q.Items b hb e he
  rw [EventContext.matches_iff] at h
  exact ⟨h.1.symm, h.2.symm⟩

/-- C4 witness: flushing a processor holding an impression and a conversion
dispatches the single combined batch, whose member list is nonempty and whose
members carry the batch's project ID and revision. -/
theorem C4_batches_never_mixed_witness :
    (LogEvent.mk testContext [BuildTestImpressionEvent, BuildTestConversionEvent]).Members ≠ []
    ∧ ∀ e ∈ (LogEvent.mk testContext
          [BuildTestImpressionEvent, BuildTestConversionEvent]).Members,
        e.Context.ProjectID = testContext.ProjectID
        ∧ e.Context.Revision = testContext.Revision :=
  C4_batches_never_mixed (fun _ => true)
    ⟨2, ⟨2, [BuildTestImpressionEvent, BuildTestConversionEvent]⟩⟩
    ⟨testContext, [BuildTestImpressionEvent, BuildTestConversionEvent]⟩ (by decide)

/-- C5: starting from a fresh processor, no sequence of `ProcessEvent` calls
ever pushes `EventsCount()` past the configured capacity, and the moment
capacity is reached a flush runs before anything else: with capacity 2, two
compatible events produce an immediate flush delivering one batch of both
events and `EventsCount()` returns to 0 (the processor is back to its freshly
constructed state). -/
theorem C5_capacity_never_exceeded (d : Dispatcher) :
    (∀ (c : Nat) (es : List UserEvent),
        ((processList d (NewEventProcessor c) es).1).EventsCount ≤ c)
    ∧ ∀ e1 e2 : UserEvent, e1.Context.matches e2.Context = true →
        processList (fun _ => true) (NewEventProcessor 2) [e1, e2]
          = (NewEventProcessor 2, [(⟨e1.Context, [e1, e2]⟩, true)]) := by
  constructor
  · intro c es
    have h := processList_length_le d es (NewEventProcessor c)
      (by simp [NewEventProcessor, NewInMemoryQueue])
    simpa [BatchEventProcessor.EventsCount, InMemoryQueue.Size,
      NewEventProcessor, NewInMemoryQueue] using h.1
  · intro e1 e2 hm
    simp [processList, processEvent, InMemoryQueue.Add, InMemoryQueue.Size,
      NewEventProcessor, NewInMemoryQueue, flushEvents_eq, batchEvents, batchRun, hm]

/-- C5 witness: with capacity 2 and the test impression and conversion (which
share a context), the second `ProcessEvent` call flushes immediately,
delivering one batch containing both events, and the count is bounded by the
capacity on an arbitrary run. -/
theorem C5_capacity_never_exceeded_witness :
    ((processList (fun _ => false) (NewEventProcessor 2)
        [BuildTestImpressionEvent, BuildTestImpressionEvent,
         BuildTestConversionEvent]).1).EventsCount ≤ 2
    ∧ processList (fun _ => true) (NewEventProcessor 2)
        [BuildTestImpressionEvent, BuildTestConversionEvent]
      = (NewEventProcessor 2,
         [(⟨testContext, [BuildTestImpressionEvent, BuildTestConversionEvent]⟩, true)]) :=
  ⟨(C5_capacity_never_exceeded (fun _ => false)).1 2
      [BuildTestImpressionEvent, BuildTestImpressionEvent, BuildTestConversionEvent],
   (C5_capacity_never_exceeded (fun _ => true)).2 BuildTestImpressionEvent
      BuildTestConversionEvent (by decide)⟩

/-- C6: a flush dispatches the queued events in enqueue order (concatenating
the members of the dispatched batches, in dispatch order, restores the queue
exactly); the queue afterwards holds precisely the members of the failed
batches, in their original relative order (a sublist of the pre-flush queue);
and any event arriving after the flush is appended behind them (or dropped
silently at capacity), so re-queued events precede newer arrivals. -/
theorem C6_global_fifo_order (d : Dispatcher) (p : BatchEventProcessor) :
    ((((flushEvents d p).2).map Prod.fst).flatMap LogEvent.Members = p.Q.Items)
    ∧ ((flushEvents d p).1).Q.Items
        = ((((flushEvents d p).2).filter (fun r => !r.2)).map Prod.fst).flatMap
            LogEvent.Members
    ∧ (((flushEvents d p).1).Q.Items).Sublist p.Q.Items
    ∧ ∀ e : UserEvent,
        ((((flushEvents d p).1).Q.Add e).Items
            = ((flushEvents d p).1).Q.Items ++ [e])
        ∨ (((flushEvents d p).1).Q.Add e).Items = ((flushEvents d p).1).Q.Items := by
  refine ⟨?_, ?_, flushEvents_items_sublist d p, ?_⟩
  · rw [flushEvents_eq]
    simp [List.map_map, Function.comp_def, batchEvents_flatMap_members]
  · rw [flushEvents_eq]
    simp [List.filter_map, List.map_map, Function.comp_def]
  · intro e
    simp only [InMemoryQueue.Add]
    split
    · exact Or.inl rfl
    · exact Or.inr rfl

/-- C7: starting from a fresh processor, for any sequence of `ProcessEvent`
calls of length at most the capacity, as long as no flush has removed events
(every dispatch attempt so far failed, which covers the case where no flush
ran at all), `EventsCount()` equals the number of calls made so far. -/
theorem C7_count_equals_calls (d : Dispatcher) (c : Nat) (es : List UserEvent)
    (hlen : es.length ≤ c)
    (hnoflush : ∀ r ∈ (processList d (NewEventProcessor c) es).2, r.2 = false) :
    ((processList d (NewEventProcessor c) es).1).EventsCount = es.length := by
  have h := processList_items_of_all_fail d es (NewEventProcessor c)
    (by simpa [NewEventProcessor, NewInMemoryQueue] using hlen) hnoflush
  simp only [NewEventProcessor, NewInMemoryQueue, List.nil_append] at h
  simp [BatchEventProcessor.EventsCount, InMemoryQueue.Size,
    NewEventProcessor, NewInMemoryQueue, h]

/-- C7 witness: three events into a fresh capacity-100 processor (no flush
occurs, so the dispatch log is empty) leave `EventsCount()` at 3. -/
theorem C7_count_equals_calls_witness :
    ((processList (fun _ => true) (NewEventProcessor 100)
        [BuildTestImpressionEvent, BuildTestImpressionEvent,
         BuildTestConversionEvent]).1).EventsCount = 3 :=
  C7_count_equals_calls (fun _ => true) 100
    [BuildTestImpressionEvent, BuildTestImpressionEvent, BuildTestConversionEvent]
    (by decide) (by decide)

/-- C8: `Add` on a queue at its configured capacity is a silent no-op — the
queue (hence its size and contents) is unchanged and no error is signalled —
and `Remove` is total and lossless for every requested count (all queue
operations are total functions in this model: none can fail). -/
theorem C8_add_at_capacity_noop {α : Type} (q : InMemoryQueue α) (e : α)
    (h : q.Size = q.MaxSize) :
    q.Add e = q ∧ (q.Add e).Size = q.Size
    ∧ ∀ n, (q.Remove n).1 ++ ((q.Remove n).2).Items = q.Items := by
  have hadd : q.Add e = q := by
    simp only [InMemoryQueue.Size] at h
    simp [InMemoryQueue.Add, h]
  refine ⟨hadd, by rw [hadd], ?_⟩
  intro n
  simp [InMemoryQueue.Remove]

/-- C8 witness: a two-element queue of capacity 2 is unchanged by `Add`, and
`Remove 1` splits it without loss. -/
theorem C8_add_at_capacity_noop_witness :
    (InMemoryQueue.mk 2 [BuildTestImpressionEvent, BuildTestConversionEvent]).Add
        BuildTestImpressionEvent
      = InMemoryQueue.mk 2 [BuildTestImpressionEvent, BuildTestConversionEvent]
    ∧ ((InMemoryQueue.mk 2 [BuildTestImpressionEvent, BuildTestConversionEvent]).Add
        BuildTestImpressionEvent).Size
      = (InMemoryQueue.mk 2 [BuildTestImpressionEvent, BuildTestConversionEvent]).Size
    ∧ ∀ n, ((InMemoryQueue.mk 2
            [BuildTestImpressionEvent, BuildTestConversionEvent]).Remove n).1
        ++ (((InMemoryQueue.mk 2
            [BuildTestImpressionEvent, BuildTestConversionEvent]).Remove n).2).Items
      = [BuildTestImpressionEvent, BuildTestConversionEvent] :=
  C8_add_at_capacity_noop
    (InMemoryQueue.mk 2 [BuildTestImpressionEvent, BuildTestConversionEvent])
    BuildTestImpressionEvent (by decide)

/-- C9: a `StaticProjectConfigManager` built by `NewStaticProjectConfigManager`
always returns exactly the config it was constructed with — `GetConfig` is its
only operation and it never changes the stored config. -/
theorem C9_static_manager_returns_construction_config {Config : Type} (c : Config) :
    (NewStaticProjectConfigManager c).GetConfig = c :=
  rfl

/-- C10: `GetListenersCalled` returns the records accumulated since the
previous call (callbacks append, in order) and resets the internal list, so a
second call with no intervening callback returns the empty list; and
`GetProjectConfigUpdateListenersCalled` has the same read-and-reset
behaviour. -/
theorem C10_get_listeners_called_resets {L P : Type} (n : NotificationManager L P)
    (x : L) (y : P) :
    (n.GetListenersCalled).1 = n.listenersCalled
    ∧ ((n.recordListener x).GetListenersCalled).1 = n.listenersCalled ++ [x]
    ∧ (((n.GetListenersCalled).2).GetListenersCalled).1 = []
    ∧ (n.GetProjectConfigUpdateListenersCalled).1
        = n.projectConfigUpdateListenersCalled
    ∧ ((n.recordConfigUpdate y).GetProjectConfigUpdateListenersCalled).1
        = n.projectConfigUpdateListenersCalled ++ [y]
    ∧ (((n.GetProjectConfigUpdateListenersCalled).2).GetProjectConfigUpdateListenersCalled).1
        = [] :=
  ⟨rfl, rfl, rfl, rfl, rfl, rfl⟩

end GoSdk
